import Mathlib

/-!
Verification of the animal-relocation program (`australia (1).py`).

The program places each animal, in input order, into the first state of a
fixed priority order that is unoccupied and passes three safety checks
against a fixed adjacency graph of Australian states.  We embed the data
model (`ADJACENT_STATES`, `FictionalAnimal`) and the placement engine
(`relocate_animals`) as executable Lean functions and prove the claimed
properties about them.

Conventions of the embedding:
* Python's mutation of `animal.state` becomes explicit threading of the
  animal list, updated at the index of the animal being processed.
* The `occupied` dict (state name to animal name, inserted in scan order,
  each key inserted at most once) becomes an association list with
  first-match lookup, extended by appending.
* The raising subscript `ADJACENT_STATES[state]` in the reverse-threat
  scan (a `KeyError` when the key is absent) is modelled in `Except`:
  `Except.error ()` is the raised `KeyError`; `dict.get(k, [])` becomes a
  defaulted lookup that cannot fail.
-/

/-- The fixed adjacency graph of the source, an insertion-ordered mapping
from state name to the list of adjacent state names. -/
def ADJACENT_STATES : List (String × List String) :=
  [("NSW", ["VIC", "SA", "QLD"]),
   ("QLD", ["NT", "SA", "NSW"]),
   ("VIC", ["SA", "NSW"]),
   ("TAS", []),
   ("SA",  ["WA", "NT", "QLD", "NSW", "VIC"]),
   ("NT",  ["WA", "SA", "QLD"]),
   ("WA",  ["SA", "NT"])]

/-- Lookup of a key in `ADJACENT_STATES`; `none` models a Python
`KeyError` on direct subscripting. -/
def adjacentLookup (s : String) : Option (List String) :=
  (ADJACENT_STATES.find? (fun p => p.1 == s)).map Prod.snd

/-- Defaulted lookup, the embedding of `ADJACENT_STATES.get(state, [])`. -/
def adjacentGetD (s : String) : List String :=
  (adjacentLookup s).getD []

/-- An animal record: name, habitat, threat (name of the animal to avoid)
and current state. -/
structure FictionalAnimal where
  name : String
  habitat : String
  threat : String
  state : String
deriving DecidableEq, Repr

/-- The constructor `FictionalAnimal.__init__`: the starting state is the
default location, the capital `ACT`. -/
def FictionalAnimal.init (name habitat threat : String) : FictionalAnimal :=
  ⟨name, habitat, threat, "ACT"⟩

/-- Accessor `get_state`: the current state of the animal. -/
def FictionalAnimal.get_state (a : FictionalAnimal) : String :=
  a.state

/-- Mutator `set_state`: updates the state only when the new state is a key
of `ADJACENT_STATES` or the default `ACT`; otherwise the record is returned
unchanged (the source silently ignores invalid states). -/
def FictionalAnimal.set_state (a : FictionalAnimal) (s : String) : FictionalAnimal :=
  if ADJACENT_STATES.any (fun p => p.1 == s) || s == "ACT" then
    { a with state := s }
  else
    a

/-- The fixed candidate order `state_order` of `relocate_animals`. -/
def state_order : List String :=
  ["NSW", "QLD", "VIC", "TAS", "SA", "NT", "WA"]

/-- Lookup in the `occupied` association list (state name to animal name),
the embedding of `occupied[state]` guarded by `state in occupied`. -/
def occLookup (occ : List (String × String)) (s : String) : Option String :=
  (occ.find? (fun p => p.1 == s)).map Prod.snd

/-- Membership test `state in occupied`. -/
def occContains (occ : List (String × String)) (s : String) : Bool :=
  occ.any (fun p => p.1 == s)

/-- The linear scan `next((a for a in animals if a.name == n), None)`. -/
def findAnimal (animals : List FictionalAnimal) (n : String) : Option FictionalAnimal :=
  animals.find? (fun a => a.name == n)

/-- The reverse-threat scan (check 3 of the source): walks the adjacency
list of the candidate state and reports `true` as soon as some occupied
adjacent state holds an animal (resolved by name through `findAnimal`)
whose threat is the name of the animal being placed. -/
def reverseThreat (animals : List FictionalAnimal) (occ : List (String × String))
    (name : String) : List String → Bool
  | [] => false
  | adj :: rest =>
    match occLookup occ adj with
    | some adjName =>
      match findAnimal animals adjName with
      | some adjAnimal =>
        if adjAnimal.threat == name then true
        else reverseThreat animals occ name rest
      | none => reverseThreat animals occ name rest
    | none => reverseThreat animals occ name rest

/-- The per-candidate safety check of `relocate_animals`, in source order:
resolve the threat animal, then (1) same-state check, (2) adjacency check
through the defaulted lookup, (3) reverse-threat scan through the raising
subscript `ADJACENT_STATES[state]` (hence the `Except`). Returns the final
value of the `safe` flag. -/
def stateSafe (animals : List FictionalAnimal) (occ : List (String × String))
    (animal : FictionalAnimal) (state : String) : Except Unit Bool :=
  match findAnimal animals animal.threat with
  | some t =>
    if t.get_state == state then .ok false
    else if (adjacentGetD state).contains t.get_state then .ok false
    else
      match adjacentLookup state with
      | none => .error ()
      | some adjs => .ok (!reverseThreat animals occ animal.name adjs)
  | none =>
    match adjacentLookup state with
    | none => .error ()
    | some adjs => .ok (!reverseThreat animals occ animal.name adjs)

/-- The candidate loop of `relocate_animals` for one animal: skip occupied
states, run the safety check, and return the first candidate with
`safe = True` (`none` when the list is exhausted). -/
def tryStates (animals : List FictionalAnimal) (occ : List (String × String))
    (animal : FictionalAnimal) : List String → Except Unit (Option String)
  | [] => .ok none
  | s :: rest =>
    if occContains occ s then tryStates animals occ animal rest
    else
      match stateSafe animals occ animal s with
      | .error e => .error e
      | .ok true => .ok (some s)
      | .ok false => tryStates animals occ animal rest

/-- One iteration of the outer loop of `relocate_animals`: process the
animal at index `i`.  On success the animal's state is set to the winning
candidate and the pair is appended to `occupied`; on exhaustion the state
is set to the default `ACT`. -/
def relocatePass (animals : List FictionalAnimal) (occ : List (String × String))
    (i : Nat) : Except Unit (List FictionalAnimal × List (String × String)) :=
  match animals[i]? with
  | none => .ok (animals, occ)
  | some animal =>
    match tryStates animals occ animal state_order with
    | .error e => .error e
    | .ok (some s) =>
      .ok (animals.set i (animal.set_state s), occ ++ [(s, animal.name)])
    | .ok none => .ok (animals.set i (animal.set_state "ACT"), occ)

/-- The outer loop of `relocate_animals`, processing `n` animals starting
at index `i`. -/
def relocateAux : Nat → List FictionalAnimal → List (String × String) → Nat →
    Except Unit (List FictionalAnimal × List (String × String))
  | 0, animals, occ, _ => .ok (animals, occ)
  | n + 1, animals, occ, i =>
    match relocatePass animals occ i with
    | .error e => .error e
    | .ok (animals', occ') => relocateAux n animals' occ' (i + 1)

/-- The relocation engine `relocate_animals`: processes every animal in
input order starting from an empty `occupied` table, returning the final
animal list and the final table. -/
def relocate_animals (animals : List FictionalAnimal) :
    Except Unit (List FictionalAnimal × List (String × String)) :=
  relocateAux animals.length animals [] 0

/-- Predicate used to characterise the winning candidate: the check
succeeded with `safe = True`. -/
def safeOk : Except Unit Bool → Bool
  | .ok true => true
  | _ => false

/-- Specification-side characterisation of the committed candidate: the
first state of `state_order` that is unoccupied and passes the safety
check. -/
def firstSafe (animals : List FictionalAnimal) (occ : List (String × String))
    (animal : FictionalAnimal) : Option String :=
  state_order.find? (fun s => !occContains occ s && safeOk (stateSafe animals occ animal s))

/-- Per-pass variant following the specification's step 1 verbatim: the
entity's location is first initialised to the default location `ACT`,
before any candidate is tried; the rest of the pass is unchanged. -/
def relocatePassSpecReset (animals : List FictionalAnimal) (occ : List (String × String))
    (i : Nat) : Except Unit (List FictionalAnimal × List (String × String)) :=
  match animals[i]? with
  | none => .ok (animals, occ)
  | some animal0 =>
    let animal := animal0.set_state "ACT"
    let animals1 := animals.set i animal
    match tryStates animals1 occ animal state_order with
    | .error e => .error e
    | .ok (some s) =>
      .ok (animals1.set i (animal.set_state s), occ ++ [(s, animal.name)])
    | .ok none => .ok (animals1.set i (animal.set_state "ACT"), occ)

/-- Outer loop of the reset-first variant. -/
def relocateAuxSpecReset : Nat → List FictionalAnimal → List (String × String) → Nat →
    Except Unit (List FictionalAnimal × List (String × String))
  | 0, animals, occ, _ => .ok (animals, occ)
  | n + 1, animals, occ, i =>
    match relocatePassSpecReset animals occ i with
    | .error e => .error e
    | .ok (animals', occ') => relocateAuxSpecReset n animals' occ' (i + 1)

/-- The reset-first relocation engine described by the specification's
algorithm (step 1 initialises each entity's location to the default). -/
def relocate_animals_specReset (animals : List FictionalAnimal) :
    Except Unit (List FictionalAnimal × List (String × String)) :=
  relocateAuxSpecReset animals.length animals [] 0

/-- Invariant of the scan after the first `i` animals have been processed:
the keys of `occupied` are distinct; every processed animal away from the
default location is recorded in `occupied` under its own name and sits at
a state of the candidate order; and no two processed animals share a
non-default state. -/
def RelocInv (animals : List FictionalAnimal) (occ : List (String × String))
    (i : Nat) : Prop :=
  (occ.map Prod.fst).Nodup ∧
  (∀ j a, j < i → animals[j]? = some a → a.state ≠ "ACT" →
    occLookup occ a.state = some a.name ∧ a.state ∈ state_order) ∧
  (∀ j k a b, j < k → k < i → animals[j]? = some a → animals[k]? = some b →
    a.state ≠ "ACT" → b.state ≠ "ACT" → a.state ≠ b.state)

theorem set_state_ACT (a : FictionalAnimal) :
    a.set_state "ACT" = { a with state := "ACT" } := rfl

theorem set_state_of_mem_state_order (a : FictionalAnimal) (s : String)
    (hs : s ∈ state_order) : a.set_state s = { a with state := s } := by
  fin_cases hs <;> rfl

theorem adjacentLookup_isSome_of_mem (s : String) (hs : s ∈ state_order) :
    (adjacentLookup s).isSome := by
  fin_cases hs <;> rfl

theorem safeOk_eq_true {e : Except Unit Bool} : safeOk e = true ↔ e = .ok true := by
  cases e with
  | error x => simp [safeOk]
  | ok b => cases b <;> simp [safeOk]

theorem stateSafe_isOk (animals : List FictionalAnimal) (occ : List (String × String))
    (animal : FictionalAnimal) (s : String) (hs : (adjacentLookup s).isSome) :
    ∃ b, stateSafe animals occ animal s = .ok b := by
  obtain ⟨adjs, hadjs⟩ := Option.isSome_iff_exists.mp hs
  unfold stateSafe
  split
  · split
    · exact ⟨_, rfl⟩
    · split
      · exact ⟨_, rfl⟩
      · rw [hadjs]; exact ⟨_, rfl⟩
  · rw [hadjs]; exact ⟨_, rfl⟩

theorem tryStates_eq_find (animals : List FictionalAnimal) (occ : List (String × String))
    (animal : FictionalAnimal) (l : List String)
    (h : ∀ s ∈ l, (adjacentLookup s).isSome) :
    tryStates animals occ animal l =
      .ok (l.find? (fun s => !occContains occ s && safeOk (stateSafe animals occ animal s))) := by
  induction l with
  | nil => rfl
  | cons s rest ih =>
    have hs := h s (List.mem_cons_self s rest)
    have hrest : ∀ x ∈ rest, (adjacentLookup x).isSome :=
      fun x hx => h x (List.mem_cons_of_mem _ hx)
    unfold tryStates
    by_cases hc : occContains occ s
    · rw [if_pos hc, ih hrest, List.find?_cons_of_neg]
      simp [hc]
    · obtain ⟨b, hb⟩ := stateSafe_isOk animals occ animal s hs
      rw [if_neg hc, hb]
      cases b
      · rw [ih hrest, List.find?_cons_of_neg]
        simp [hc, hb, safeOk]
      · rw [List.find?_cons_of_pos]
        simp [hc, hb, safeOk]

theorem tryStates_state_order (animals : List FictionalAnimal)
    (occ : List (String × String)) (animal : FictionalAnimal) :
    tryStates animals occ animal state_order = .ok (firstSafe animals occ animal) :=
  tryStates_eq_find animals occ animal state_order (by decide)

theorem firstSafe_spec {animals : List FictionalAnimal} {occ : List (String × String)}
    {animal : FictionalAnimal} {s : String}
    (h : firstSafe animals occ animal = some s) :
    occContains occ s = false ∧ stateSafe animals occ animal s = .ok true ∧
      s ∈ state_order := by
  have hp := List.find?_some h
  have hm := List.mem_of_find?_eq_some h
  rw [Bool.and_eq_true, Bool.not_eq_true'] at hp
  exact ⟨hp.1, safeOk_eq_true.mp hp.2, hm⟩

theorem occContains_of_occLookup {occ : List (String × String)} {s n : String}
    (h : occLookup occ s = some n) : occContains occ s = true := by
  unfold occLookup at h
  cases hf : occ.find? (fun p => p.1 == s) with
  | none => rw [hf] at h; cases h
  | some q =>
    have hm := List.mem_of_find?_eq_some hf
    have hp := List.find?_some hf
    unfold occContains
    rw [List.any_eq_true]
    exact ⟨q, hm, hp⟩

theorem occLookup_append_left {occ t : List (String × String)} {s n : String}
    (h : occLookup occ s = some n) : occLookup (occ ++ t) s = some n := by
  unfold occLookup at h ⊢
  cases hf : occ.find? (fun p => p.1 == s) with
  | none => rw [hf] at h; cases h
  | some q =>
    rw [List.find?_append, hf]
    rw [hf] at h
    simpa using h

theorem find?_eq_none_of_not_contains {occ : List (String × String)} {s : String}
    (h : occContains occ s = false) : occ.find? (fun p => p.1 == s) = none := by
  rw [List.find?_eq_none]
  intro p hp
  unfold occContains at h
  exact List.any_eq_false.mp h p hp

theorem occLookup_append_new {occ : List (String × String)} {s n : String}
    (h : occContains occ s = false) : occLookup (occ ++ [(s, n)]) s = some n := by
  unfold occLookup
  rw [List.find?_append, find?_eq_none_of_not_contains h]
  simp

theorem not_mem_keys_of_not_contains {occ : List (String × String)} {s : String}
    (h : occContains occ s = false) : s ∉ occ.map Prod.fst := by
  intro hm
  obtain ⟨p, hp, hps⟩ := List.mem_map.mp hm
  unfold occContains at h
  have hne := List.any_eq_false.mp h p hp
  simp [hps] at hne

theorem findAnimal_of_nodup {animals : List FictionalAnimal} {e : FictionalAnimal}
    (hn : (animals.map FictionalAnimal.name).Nodup) (he : e ∈ animals) :
    findAnimal animals e.name = some e := by
  induction animals with
  | nil => cases he
  | cons a rest ih =>
    rw [List.map_cons, List.nodup_cons] at hn
    unfold findAnimal
    rcases List.mem_cons.mp he with rfl | hm
    · simp [List.find?_cons]
    · have hne : a.name ≠ e.name := by
        intro hEq
        exact hn.1 (hEq ▸ List.mem_map_of_mem _ hm)
      rw [List.find?_cons_of_neg _ (by simpa using hne)]
      exact ih hn.2 hm

theorem reverseThreat_of_victim {animals : List FictionalAnimal}
    {occ : List (String × String)} {name : String} {l victimName : String}
    {victim : FictionalAnimal} {adjs : List String}
    (hl : l ∈ adjs) (ho : occLookup occ l = some victimName)
    (hf : findAnimal animals victimName = some victim)
    (ht : victim.threat = name) :
    reverseThreat animals occ name adjs = true := by
  induction adjs with
  | nil => cases hl
  | cons adj rest ih =>
    rcases List.mem_cons.mp hl with rfl | hm
    · simp [reverseThreat, ho, hf, ht]
    · have hrest := ih hm
      cases hoc : occLookup occ adj with
      | none => simp [reverseThreat, hoc, hrest]
      | some n =>
        cases hfa : findAnimal animals n with
        | none => simp [reverseThreat, hoc, hfa, hrest]
        | some a =>
          by_cases hth : (a.threat == name) = true
          · simp [reverseThreat, hoc, hfa, hth]
          · simp [reverseThreat, hoc, hfa, hth, hrest]

theorem list_set_self {l : List FictionalAnimal} {i : Nat} {a : FictionalAnimal}
    (h : l[i]? = some a) : l.set i a = l := by
  apply List.ext_getElem?
  intro n
  by_cases hn : i = n
  · subst hn
    rw [List.getElem?_set_self', h]
    rfl
  · rw [List.getElem?_set_ne hn]

theorem relocatePass_preserves {animals : List FictionalAnimal}
    {occ : List (String × String)} {i : Nat} {animals' : List FictionalAnimal}
    {occ' : List (String × String)}
    (h : relocatePass animals occ i = .ok (animals', occ')) :
    (∀ j, j ≠ i → animals'[j]? = animals[j]?) ∧ ∃ t, occ' = occ ++ t := by
  cases hai : animals[i]? with
  | none =>
    simp only [relocatePass, hai, Except.ok.injEq, Prod.mk.injEq] at h
    obtain ⟨rfl, rfl⟩ := h
    exact ⟨fun _ _ => rfl, ⟨[], (List.append_nil _).symm⟩⟩
  | some animal =>
    simp only [relocatePass, hai, tryStates_state_order] at h
    cases hfs : firstSafe animals occ animal with
    | none =>
      simp only [hfs, Except.ok.injEq, Prod.mk.injEq] at h
      obtain ⟨rfl, rfl⟩ := h
      exact ⟨fun j hj => List.getElem?_set_ne (Ne.symm hj),
        ⟨[], (List.append_nil _).symm⟩⟩
    | some s =>
      simp only [hfs, Except.ok.injEq, Prod.mk.injEq] at h
      obtain ⟨rfl, rfl⟩ := h
      exact ⟨fun j hj => List.getElem?_set_ne (Ne.symm hj), ⟨[(s, animal.name)], rfl⟩⟩

theorem relocateAux_preserves : ∀ {n : Nat} {animals : List FictionalAnimal}
    {occ : List (String × String)} {i : Nat} {f : List FictionalAnimal}
    {occF : List (String × String)},
    relocateAux n animals occ i = .ok (f, occF) →
    (∀ j, j < i → f[j]? = animals[j]?) ∧ ∃ t, occF = occ ++ t := by
  intro n
  induction n with
  | zero =>
    intro animals occ i f occF h
    simp only [relocateAux, Except.ok.injEq, Prod.mk.injEq] at h
    obtain ⟨rfl, rfl⟩ := h
    exact ⟨fun _ _ => rfl, ⟨[], (List.append_nil _).symm⟩⟩
  | succ n ih =>
    intro animals occ i f occF h
    simp only [relocateAux] at h
    cases hp : relocatePass animals occ i with
    | error e => rw [hp] at h; cases h
    | ok res =>
      obtain ⟨a1, o1⟩ := res
      simp only [hp] at h
      obtain ⟨hpres, t2, ht2⟩ := ih h
      obtain ⟨hpres1, t1, ht1⟩ := relocatePass_preserves hp
      refine ⟨?_, ⟨t1 ++ t2, ?_⟩⟩
      · intro j hj
        rw [hpres j (Nat.lt_succ_of_lt hj), hpres1 j (Nat.ne_of_lt hj)]
      · rw [ht2, ht1, List.append_assoc]

theorem relocatePass_ok {animals : List FictionalAnimal} {occ : List (String × String)}
    {i : Nat} (hinv : RelocInv animals occ i) :
    ∃ animals' occ', relocatePass animals occ i = .ok (animals', occ') ∧
      RelocInv animals' occ' (i + 1) ∧
      animals'.length = animals.length ∧
      (∀ j, j ≠ i → animals'[j]? = animals[j]?) ∧
      (∃ t, occ' = occ ++ t) := by
  obtain ⟨hnodup, hplaced, hdist⟩ := hinv
  cases hai : animals[i]? with
  | none =>
    refine ⟨animals, occ, by simp [relocatePass, hai], ⟨hnodup, ?_, ?_⟩, rfl,
      fun j _ => rfl, ⟨[], (List.append_nil occ).symm⟩⟩
    · intro j a hj haj hact
      rcases Nat.lt_succ_iff_lt_or_eq.mp hj with hj' | rfl
      · exact hplaced j a hj' haj hact
      · rw [hai] at haj; cases haj
    · intro j k a b hjk hk haj hbk ha hb
      rcases Nat.lt_succ_iff_lt_or_eq.mp hk with hk' | rfl
      · exact hdist j k a b hjk hk' haj hbk ha hb
      · rw [hai] at hbk; cases hbk
  | some animal =>
    have hlt : i < animals.length := (List.getElem?_eq_some_iff.mp hai).1
    cases hfs : firstSafe animals occ animal with
    | none =>
      refine ⟨animals.set i (animal.set_state "ACT"), occ,
        by simp [relocatePass, hai, tryStates_state_order, hfs], ⟨hnodup, ?_, ?_⟩,
        List.length_set animals i _, fun j hj => List.getElem?_set_ne (Ne.symm hj),
        ⟨[], (List.append_nil occ).symm⟩⟩
      · intro j a hj haj hact
        rcases Nat.lt_succ_iff_lt_or_eq.mp hj with hj' | rfl
        · rw [List.getElem?_set_ne (Ne.symm (Nat.ne_of_lt hj'))] at haj
          exact hplaced j a hj' haj hact
        · rw [List.getElem?_set_self hlt] at haj
          injection haj with haj'
          exact absurd (by rw [← haj']; rfl) hact
      · intro j k a b hjk hk haj hbk ha hb
        rcases Nat.lt_succ_iff_lt_or_eq.mp hk with hk' | rfl
        · rw [List.getElem?_set_ne (Ne.symm (Nat.ne_of_lt (Nat.lt_trans hjk hk')))] at haj
          rw [List.getElem?_set_ne (Ne.symm (Nat.ne_of_lt hk'))] at hbk
          exact hdist j k a b hjk hk' haj hbk ha hb
        · rw [List.getElem?_set_self hlt] at hbk
          injection hbk with hbk'
          exact absurd (by rw [← hbk']; rfl) hb
    | some s =>
      obtain ⟨hocc, hsafe, hmem⟩ := firstSafe_spec hfs
      have hset : animal.set_state s = { animal with state := s } :=
        set_state_of_mem_state_order animal s hmem
      refine ⟨animals.set i (animal.set_state s), occ ++ [(s, animal.name)],
        by simp [relocatePass, hai, tryStates_state_order, hfs], ⟨?_, ?_, ?_⟩,
        List.length_set animals i _, fun j hj => List.getElem?_set_ne (Ne.symm hj),
        ⟨[(s, animal.name)], rfl⟩⟩
      · rw [List.map_append]
        refine List.Nodup.append hnodup (by simp) ?_
        intro x hx hx'
        simp at hx'
        subst hx'
        exact not_mem_keys_of_not_contains hocc hx
      · intro j a hj haj hact
        rcases Nat.lt_succ_iff_lt_or_eq.mp hj with hj' | rfl
        · rw [List.getElem?_set_ne (Ne.symm (Nat.ne_of_lt hj'))] at haj
          obtain ⟨hlook, hmem'⟩ := hplaced j a hj' haj hact
          exact ⟨occLookup_append_left hlook, hmem'⟩
        · rw [List.getElem?_set_self hlt, hset] at haj
          injection haj with haj'
          rw [← haj']
          exact ⟨occLookup_append_new hocc, hmem⟩
      · intro j k a b hjk hk haj hbk ha hb
        rcases Nat.lt_succ_iff_lt_or_eq.mp hk with hk' | rfl
        · rw [List.getElem?_set_ne (Ne.symm (Nat.ne_of_lt (Nat.lt_trans hjk hk')))] at haj
          rw [List.getElem?_set_ne (Ne.symm (Nat.ne_of_lt hk'))] at hbk
          exact hdist j k a b hjk hk' haj hbk ha hb
        · rw [List.getElem?_set_ne (Ne.symm (Nat.ne_of_lt hjk))] at haj
          rw [List.getElem?_set_self hlt, hset] at hbk
          injection hbk with hbk'
          obtain ⟨hlook, _⟩ := hplaced j a hjk haj ha
          intro hEq
          have hbs : b.state = s := by rw [← hbk']
          rw [hEq, hbs] at hlook
          have hcon := occContains_of_occLookup hlook
          rw [hocc] at hcon
          cases hcon

theorem relocateAux_ok : ∀ (n : Nat) (animals : List FictionalAnimal)
    (occ : List (String × String)) (i : Nat), RelocInv animals occ i →
    ∃ f occF, relocateAux n animals occ i = .ok (f, occF) ∧
      RelocInv f occF (i + n) ∧ f.length = animals.length
  | 0, animals, occ, i, hinv => ⟨animals, occ, rfl, hinv, rfl⟩
  | n + 1, animals, occ, i, hinv => by
    obtain ⟨a1, o1, hp, hinv1, hlen1, _, _⟩ := relocatePass_ok hinv
    obtain ⟨f, occF, hr, hinvF, hlenF⟩ := relocateAux_ok n a1 o1 (i + 1) hinv1
    refine ⟨f, occF, ?_, ?_, ?_⟩
    · simp only [relocateAux, hp]
      exact hr
    · have hidx : i + (n + 1) = (i + 1) + n := by omega
      rw [hidx]
      exact hinvF
    · rw [hlenF, hlen1]

theorem relocate_animals_ok (animals : List FictionalAnimal) :
    ∃ f occF, relocate_animals animals = .ok (f, occF) ∧
      RelocInv f occF animals.length ∧ f.length = animals.length := by
  have hbase : RelocInv animals [] 0 :=
    ⟨List.nodup_nil, fun j a hj _ _ => absurd hj (Nat.not_lt_zero j),
      fun j k a b _ hk _ _ _ _ => absurd hk (Nat.not_lt_zero k)⟩
  obtain ⟨f, occF, hr, hinv, hlen⟩ :=
    relocateAux_ok animals.length animals [] 0 hbase
  rw [Nat.zero_add] at hinv
  exact ⟨f, occF, hr, hinv, hlen⟩

theorem relocateAuxSpecReset_eq : ∀ (n : Nat) (animals : List FictionalAnimal)
    (occ : List (String × String)) (i : Nat),
    (∀ j a, i ≤ j → animals[j]? = some a → a.state = "ACT") →
    relocateAuxSpecReset n animals occ i = relocateAux n animals occ i
  | 0, _, _, _, _ => rfl
  | n + 1, animals, occ, i, h => by
    have hpass : relocatePassSpecReset animals occ i = relocatePass animals occ i := by
      cases hai : animals[i]? with
      | none => simp [relocatePassSpecReset, relocatePass, hai]
      | some animal =>
        have hact : animal.state = "ACT" := h i animal (Nat.le_refl i) hai
        have h1 : animal.set_state "ACT" = animal := by
          obtain ⟨nm, hb, th, st⟩ := animal
          have hst : st = "ACT" := hact
          subst hst
          rfl
        have h2 : animals.set i animal = animals := list_set_self hai
        simp only [relocatePassSpecReset, relocatePass, hai, h1, h2]
    simp only [relocateAuxSpecReset, relocateAux, hpass]
    cases hp : relocatePass animals occ i with
    | error e => rfl
    | ok res =>
      obtain ⟨a1, o1⟩ := res
      have hpres := (relocatePass_preserves hp).1
      exact relocateAuxSpecReset_eq n a1 o1 (i + 1)
        (fun j a hj haj =>
          h j a (Nat.le_of_succ_le hj)
            (by rw [← hpres j (by omega)]; exact haj))

theorem state_order_sub_keys : ∀ s ∈ state_order, s ∈ ADJACENT_STATES.map Prod.fst := by
  decide

/-- Claim C1: after `relocate_animals` finishes, the `occupied` table maps
each state to at most one animal name (its keys are pairwise distinct), and
no two distinct animals end with the same non-default state. -/
theorem relocate_no_double_occupancy
    (animals f : List FictionalAnimal) (occ : List (String × String))
    (h : relocate_animals animals = .ok (f, occ)) :
    (occ.map Prod.fst).Nodup ∧
    (∀ (j k : Nat) (a b : FictionalAnimal), j ≠ k → f[j]? = some a → f[k]? = some b →
      a.state ≠ "ACT" → b.state ≠ "ACT" → a.state ≠ b.state) := by
  obtain ⟨f', occ', hr, hinv, hlen⟩ := relocate_animals_ok animals
  rw [h] at hr
  injection hr with hr1
  injection hr1 with e1 e2
  subst e1
  subst e2
  obtain ⟨hnodup, hplaced, hdist⟩ := hinv
  refine ⟨hnodup, ?_⟩
  intro j k a b hjk haj hbk ha hb
  rcases Ne.lt_or_lt hjk with hlt | hlt
  · have hk : k < animals.length := by
      have := (List.getElem?_eq_some_iff.mp hbk).1
      omega
    exact hdist j k a b hlt hk haj hbk ha hb
  · have hj : j < animals.length := by
      have := (List.getElem?_eq_some_iff.mp haj).1
      omega
    exact (hdist k j b a hlt hj hbk haj hb ha).symm

/-- Witness for C1 at a concrete two-animal input. -/
theorem relocate_no_double_occupancy_witness :
    relocate_animals
        [FictionalAnimal.init "A" "h" "", FictionalAnimal.init "B" "h" ""] =
      .ok ([⟨"A", "h", "", "NSW"⟩, ⟨"B", "h", "", "QLD"⟩],
        [("NSW", "A"), ("QLD", "B")]) ∧
    (([("NSW", "A"), ("QLD", "B")].map Prod.fst).Nodup ∧
      (∀ (j k : Nat) (a b : FictionalAnimal), j ≠ k →
        ([⟨"A", "h", "", "NSW"⟩, ⟨"B", "h", "", "QLD"⟩] :
            List FictionalAnimal)[j]? = some a →
        ([⟨"A", "h", "", "NSW"⟩, ⟨"B", "h", "", "QLD"⟩] :
            List FictionalAnimal)[k]? = some b →
        a.state ≠ "ACT" → b.state ≠ "ACT" → a.state ≠ b.state)) :=
  ⟨rfl,
    relocate_no_double_occupancy
      [FictionalAnimal.init "A" "h" "", FictionalAnimal.init "B" "h" ""]
      [⟨"A", "h", "", "NSW"⟩, ⟨"B", "h", "", "QLD"⟩]
      [("NSW", "A"), ("QLD", "B")] rfl⟩

/-- Claim C7: after `relocate_animals` finishes, every animal's state is
either the default location `ACT` or one of the keys of the fixed adjacency
graph. -/
theorem relocate_final_state_valid
    (animals f : List FictionalAnimal) (occ : List (String × String))
    (j : Nat) (a : FictionalAnimal)
    (h : relocate_animals animals = .ok (f, occ)) (hj : f[j]? = some a) :
    a.state = "ACT" ∨ a.state ∈ ADJACENT_STATES.map Prod.fst := by
  obtain ⟨f', occ', hr, hinv, hlen⟩ := relocate_animals_ok animals
  rw [h] at hr
  injection hr with hr1
  injection hr1 with e1 e2
  subst e1
  subst e2
  by_cases hact : a.state = "ACT"
  · exact Or.inl hact
  · have hjlt : j < animals.length := by
      have := (List.getElem?_eq_some_iff.mp hj).1
      omega
    have := (hinv.2.1 j a hjlt hj hact).2
    exact Or.inr (state_order_sub_keys a.state this)

/-- Witness for C7 at a concrete input: an animal whose threat reference
names no existing animal is placed at the first candidate `NSW`, a key of
the graph. -/
theorem relocate_final_state_valid_witness :
    relocate_animals [FictionalAnimal.init "C" "h" "D"] =
      .ok ([⟨"C", "h", "D", "NSW"⟩], [("NSW", "C")]) ∧
    (("NSW" : String) = "ACT" ∨ "NSW" ∈ ADJACENT_STATES.map Prod.fst) :=
  ⟨rfl,
    relocate_final_state_valid [FictionalAnimal.init "C" "h" "D"]
      [⟨"C", "h", "D", "NSW"⟩] [("NSW", "C")] 0 ⟨"C", "h", "D", "NSW"⟩ rfl rfl⟩

/-- Claim C8: `relocate_animals` is deterministic; equal input sequences
give equal results (the embedding has no source of nondeterminism). -/
theorem relocate_animals_deterministic (xs ys : List FictionalAnimal)
    (h : xs = ys) : relocate_animals xs = relocate_animals ys := by
  rw [h]

/-- Witness for C8 at a concrete input. -/
theorem relocate_animals_deterministic_witness :
    relocate_animals [FictionalAnimal.init "E" "h" "F"] =
      relocate_animals [FictionalAnimal.init "E" "h" "F"] :=
  relocate_animals_deterministic [FictionalAnimal.init "E" "h" "F"]
    [FictionalAnimal.init "E" "h" "F"] rfl

/-- Claim C9: reading an animal's location through `get_state` right after
the run returns the location under which the table records the animal's
name; moreover the `set_state` call at commit time cannot silently reject a
location drawn from the candidate order. -/
theorem relocate_round_trip :
    (∀ (animals f : List FictionalAnimal) (occ : List (String × String))
      (j : Nat) (a : FictionalAnimal),
      relocate_animals animals = .ok (f, occ) → f[j]? = some a →
      a.get_state ≠ "ACT" → occLookup occ a.get_state = some a.name) ∧
    (∀ (b : FictionalAnimal) (s : String), s ∈ state_order →
      (b.set_state s).get_state = s) := by
  constructor
  · intro animals f occ j a h hj hact
    obtain ⟨f', occ', hr, hinv, hlen⟩ := relocate_animals_ok animals
    rw [h] at hr
    injection hr with hr1
    injection hr1 with e1 e2
    subst e1
    subst e2
    have hjlt : j < animals.length := by
      have := (List.getElem?_eq_some_iff.mp hj).1
      omega
    exact (hinv.2.1 j a hjlt hj hact).1
  · intro b s hs
    rw [set_state_of_mem_state_order b s hs]
    rfl

/-- Witness for C9 at a concrete input. -/
theorem relocate_round_trip_witness :
    relocate_animals [FictionalAnimal.init "G" "h" ""] =
      .ok ([⟨"G", "h", "", "NSW"⟩], [("NSW", "G")]) ∧
    occLookup [("NSW", "G")] (FictionalAnimal.get_state ⟨"G", "h", "", "NSW"⟩) =
      some "G" ∧
    (FictionalAnimal.set_state ⟨"G", "h", "", "ACT"⟩ "QLD").get_state = "QLD" :=
  ⟨rfl,
    relocate_round_trip.1 [FictionalAnimal.init "G" "h" ""]
      [⟨"G", "h", "", "NSW"⟩] [("NSW", "G")] 0 ⟨"G", "h", "", "NSW"⟩ rfl rfl
      (by decide),
    relocate_round_trip.2 ⟨"G", "h", "", "ACT"⟩ "QLD" (by decide)⟩

/-- Claim C10: `set_state s` updates the state to `s` exactly when `s` is a
key of `ADJACENT_STATES` or equals `ACT`; for any other string the record
is unchanged (and, being total, the call raises nothing). -/
theorem set_state_valid_iff (a : FictionalAnimal) (s : String) :
    ((s ∈ ADJACENT_STATES.map Prod.fst ∨ s = "ACT") →
      a.set_state s = { a with state := s }) ∧
    ((s ∉ ADJACENT_STATES.map Prod.fst ∧ s ≠ "ACT") → a.set_state s = a) := by
  constructor
  · intro h
    unfold FictionalAnimal.set_state
    rw [if_pos]
    rw [Bool.or_eq_true]
    rcases h with h | rfl
    · left
      rw [List.any_eq_true]
      obtain ⟨p, hp, hps⟩ := List.mem_map.mp h
      exact ⟨p, hp, by simp [hps]⟩
    · right
      simp
  · intro h
    unfold FictionalAnimal.set_state
    rw [if_neg]
    rw [Bool.or_eq_true]
    rintro (hany | hact)
    · obtain ⟨p, hp, hps⟩ := List.any_eq_true.mp hany
      exact h.1 (List.mem_map.mpr ⟨p, hp, by simpa using hps⟩)
    · exact h.2 (by simpa using hact)

/-- Witness for C10: a valid state is written, an invalid one is ignored. -/
theorem set_state_valid_iff_witness :
    FictionalAnimal.set_state ⟨"K", "h", "L", "ACT"⟩ "WA" =
      ⟨"K", "h", "L", "WA"⟩ ∧
    FictionalAnimal.set_state ⟨"K", "h", "L", "ACT"⟩ "Narnia" =
      ⟨"K", "h", "L", "ACT"⟩ :=
  ⟨(set_state_valid_iff ⟨"K", "h", "L", "ACT"⟩ "WA").1 (by decide),
    (set_state_valid_iff ⟨"K", "h", "L", "ACT"⟩ "Narnia").2 (by decide)⟩

/-- Claim C2: placement at a candidate fails when some already-placed animal
occupying a state adjacent to the candidate (per the graph entry for the
candidate) has the placed animal's name as its threat; and the reverse
scan is evaluated only after the same-state and adjacency checks pass — if
either forward check fires the result is already `safe = False`, with no
access to the graph entry of the candidate. -/
theorem relocate_reverse_threat_check :
    (∀ (animals : List FictionalAnimal) (occ : List (String × String))
      (animal : FictionalAnimal) (s : String) (adjs : List String)
      (l : String) (victim : FictionalAnimal),
      (animals.map FictionalAnimal.name).Nodup →
      adjacentLookup s = some adjs →
      l ∈ adjs →
      victim ∈ animals →
      occLookup occ l = some victim.name →
      victim.threat = animal.name →
      stateSafe animals occ animal s = .ok false) ∧
    (∀ (animals : List FictionalAnimal) (occ : List (String × String))
      (animal : FictionalAnimal) (s : String) (t : FictionalAnimal),
      findAnimal animals animal.threat = some t →
      (t.get_state = s ∨ t.get_state ∈ adjacentGetD s) →
      stateSafe animals occ animal s = .ok false) := by
  constructor
  · intro animals occ animal s adjs l victim hn hadj hl hv ho ht
    have hfv : findAnimal animals victim.name = some victim :=
      findAnimal_of_nodup hn hv
    have hrt : reverseThreat animals occ animal.name adjs = true :=
      reverseThreat_of_victim hl ho hfv ht
    cases hf : findAnimal animals animal.threat with
    | none => simp [stateSafe, hf, hadj, hrt]
    | some t =>
      by_cases h1 : (t.get_state == s) = true
      · simp [stateSafe, hf, h1]
      · by_cases h2 : ((adjacentGetD s).contains t.get_state) = true
        · simp [stateSafe, hf, h1, h2]
          intro hmem
          exact absurd (by simpa using h2) hmem
        · simp [stateSafe, hf, h1, h2, hadj, hrt]
  · intro animals occ animal s t hf hor
    rcases hor with h1 | h2
    · simp [stateSafe, hf, h1]
    · by_cases h1 : (t.get_state == s) = true
      · simp [stateSafe, hf, h1]
      · have h2' : ((adjacentGetD s).contains t.get_state) = true :=
          List.contains_iff_exists_mem_beq.mpr ⟨t.get_state, h2, by simp⟩
        simp [stateSafe, hf, h1, h2']
        intro hmem
        exact absurd h2 hmem

/-- Witness for C2: an already-placed victim at `VIC` (adjacent to the
candidate `NSW`) whose threat is the animal being placed blocks `NSW`; a
same-state conflict also yields `safe = False`. -/
theorem relocate_reverse_threat_check_witness :
    occLookup [("VIC", "Prey")] "VIC" = some "Prey" ∧
    stateSafe [⟨"Hunter", "h", "X", "ACT"⟩, ⟨"Prey", "h", "Hunter", "VIC"⟩]
      [("VIC", "Prey")] ⟨"Hunter", "h", "X", "ACT"⟩ "NSW" = .ok false ∧
    stateSafe [⟨"A", "h", "T", "ACT"⟩, ⟨"T", "h", "", "QLD"⟩] []
      ⟨"A", "h", "T", "ACT"⟩ "QLD" = .ok false :=
  ⟨rfl,
    relocate_reverse_threat_check.1
      [⟨"Hunter", "h", "X", "ACT"⟩, ⟨"Prey", "h", "Hunter", "VIC"⟩]
      [("VIC", "Prey")] ⟨"Hunter", "h", "X", "ACT"⟩ "NSW" ["VIC", "SA", "QLD"]
      "VIC" ⟨"Prey", "h", "Hunter", "VIC"⟩ (by decide) rfl (by decide)
      (by decide) rfl rfl,
    relocate_reverse_threat_check.2
      [⟨"A", "h", "T", "ACT"⟩, ⟨"T", "h", "", "QLD"⟩] [] ⟨"A", "h", "T", "ACT"⟩
      "QLD" ⟨"T", "h", "", "QLD"⟩ rfl (Or.inl rfl)⟩

/-- Claim C4: an unplaced threat sitting at the default location `ACT`
never makes the same-state or adjacency check fail: for every candidate of
the fixed order, the safety check reduces to the reverse-threat scan alone,
because `ACT` equals no candidate and occurs in no adjacency list. -/
theorem relocate_unplaced_threat_never_blocks
    (animals : List FictionalAnimal) (occ : List (String × String))
    (animal : FictionalAnimal) (s : String) (t : FictionalAnimal)
    (hfind : findAnimal animals animal.threat = some t)
    (hact : t.get_state = "ACT") (hs : s ∈ state_order) :
    stateSafe animals occ animal s =
      .ok (!reverseThreat animals occ animal.name (adjacentGetD s)) := by
  fin_cases hs <;>
    simp [stateSafe, hfind, hact, adjacentGetD, adjacentLookup, ADJACENT_STATES]

/-- Witness for C4: a threat animal still at `ACT` leaves the check for
candidate `NSW` determined by the reverse scan only. -/
theorem relocate_unplaced_threat_never_blocks_witness :
    findAnimal [⟨"A", "h", "T", "ACT"⟩, ⟨"T", "h", "Z", "ACT"⟩]
      (FictionalAnimal.threat ⟨"A", "h", "T", "ACT"⟩) =
      some ⟨"T", "h", "Z", "ACT"⟩ ∧
    stateSafe [⟨"A", "h", "T", "ACT"⟩, ⟨"T", "h", "Z", "ACT"⟩] []
      ⟨"A", "h", "T", "ACT"⟩ "NSW" =
      .ok (!reverseThreat [⟨"A", "h", "T", "ACT"⟩, ⟨"T", "h", "Z", "ACT"⟩] []
        "A" (adjacentGetD "NSW")) :=
  ⟨rfl,
    relocate_unplaced_threat_never_blocks
      [⟨"A", "h", "T", "ACT"⟩, ⟨"T", "h", "Z", "ACT"⟩] []
      ⟨"A", "h", "T", "ACT"⟩ "NSW" ⟨"T", "h", "Z", "ACT"⟩ rfl rfl (by decide)⟩

/-- Claim C3: candidates are tried in the single fixed order
`NSW, QLD, VIC, TAS, SA, NT, WA`, identical for every animal; the committed
candidate is the first one that is unoccupied and passes the safety check
(every earlier candidate is occupied or unsafe); and processing of later
animals never changes an earlier animal or removes an `occupied` entry. -/
theorem relocate_fixed_priority_first_safe :
    state_order = ["NSW", "QLD", "VIC", "TAS", "SA", "NT", "WA"] ∧
    (∀ (animals : List FictionalAnimal) (occ : List (String × String))
      (animal : FictionalAnimal),
      tryStates animals occ animal state_order =
        .ok (firstSafe animals occ animal)) ∧
    (∀ (animals : List FictionalAnimal) (occ : List (String × String))
      (animal : FictionalAnimal) (s : String),
      firstSafe animals occ animal = some s →
      occContains occ s = false ∧ stateSafe animals occ animal s = .ok true ∧
      ∃ pre post, state_order = pre ++ s :: post ∧
        ∀ s' ∈ pre, ¬(occContains occ s' = false ∧
          stateSafe animals occ animal s' = .ok true)) ∧
    (∀ (n : Nat) (animals f : List FictionalAnimal)
      (occ occF : List (String × String)) (i : Nat),
      relocateAux n animals occ i = .ok (f, occF) →
      (∀ j, j < i → f[j]? = animals[j]?) ∧ ∃ t, occF = occ ++ t) := by
  refine ⟨rfl, tryStates_state_order, ?_, ?_⟩
  · intro animals occ animal s h
    unfold firstSafe at h
    obtain ⟨hp, pre, post, hsplit, hpre⟩ := List.find?_eq_some.mp h
    rw [Bool.and_eq_true, Bool.not_eq_true'] at hp
    refine ⟨hp.1, safeOk_eq_true.mp hp.2, pre, post, hsplit, ?_⟩
    intro s' hs' hcontra
    have hps' := hpre s' hs'
    have hq : (!occContains occ s' &&
        safeOk (stateSafe animals occ animal s')) = true := by
      rw [hcontra.1, safeOk_eq_true.mpr hcontra.2]
      rfl
    rw [hq] at hps'
    simp at hps'
  · intro n animals f occ occF i h
    exact relocateAux_preserves h

/-- Witness for C3: with no threats and an empty table the first candidate
`NSW` wins, and a one-step run preserves the (empty) prefix. -/
theorem relocate_fixed_priority_first_safe_witness :
    firstSafe [] [] ⟨"A", "h", "", "ACT"⟩ = some "NSW" ∧
    (occContains [] "NSW" = false ∧
      stateSafe [] [] ⟨"A", "h", "", "ACT"⟩ "NSW" = .ok true ∧
      ∃ pre post, state_order = pre ++ "NSW" :: post ∧
        ∀ s' ∈ pre, ¬(occContains [] s' = false ∧
          stateSafe [] [] ⟨"A", "h", "", "ACT"⟩ s' = .ok true)) ∧
    ((∀ j, j < 0 →
        ([⟨"A", "h", "", "NSW"⟩] : List FictionalAnimal)[j]? =
          ([⟨"A", "h", "", "ACT"⟩] : List FictionalAnimal)[j]?) ∧
      ∃ t, [("NSW", "A")] = ([] : List (String × String)) ++ t) :=
  ⟨rfl,
    relocate_fixed_priority_first_safe.2.2.1 [] [] ⟨"A", "h", "", "ACT"⟩
      "NSW" rfl,
    relocate_fixed_priority_first_safe.2.2.2 1 [⟨"A", "h", "", "ACT"⟩]
      [⟨"A", "h", "", "NSW"⟩] [] [("NSW", "A")] 0 rfl⟩

/-- Counterexample for claim C5: the reverse-threat scan subscripts the
graph directly, so the safety check raises (the modelled `KeyError`) on a
candidate location absent from the adjacency graph once the forward checks
pass, instead of treating the candidate as having no adjacents. -/
theorem reverse_scan_raises_on_unknown_location :
    adjacentLookup "XYZ" = none ∧
    stateSafe [] [] ⟨"A", "h", "T", "ACT"⟩ "XYZ" = .error () :=
  ⟨rfl, rfl⟩

/-- Claim C5 (amended): the forward adjacency check uses the defaulted
lookup and treats a candidate absent from the graph as having no adjacents;
the reverse-threat scan would raise on such a candidate, but every
candidate tried by `relocate_animals` is drawn from `state_order`, all of
which are keys of the graph, so the engine never raises. -/
theorem adjacency_lookup_fail_closed_amended :
    (∀ s : String, adjacentLookup s = none → adjacentGetD s = []) ∧
    (∀ s ∈ state_order, (adjacentLookup s).isSome) ∧
    (∀ animals : List FictionalAnimal,
      ∃ p, relocate_animals animals = .ok p) := by
  refine ⟨?_, by decide, ?_⟩
  · intro s h
    unfold adjacentGetD
    rw [h]
    rfl
  · intro animals
    obtain ⟨f, occF, hr, _, _⟩ := relocate_animals_ok animals
    exact ⟨(f, occF), hr⟩

/-- Witness for the amended C5. -/
theorem adjacency_lookup_fail_closed_amended_witness :
    adjacentGetD "XYZ" = [] ∧ (adjacentLookup "NSW").isSome ∧
    (∃ p, relocate_animals ([] : List FictionalAnimal) = .ok p) :=
  ⟨adjacency_lookup_fail_closed_amended.1 "XYZ" rfl,
    adjacency_lookup_fail_closed_amended.2.1 "NSW" (by decide),
    adjacency_lookup_fail_closed_amended.2.2 []⟩

/-- Counterexample for claim C6: `relocate_animals` does not initialise an
entity's location to the default at the start of its pass.  A
self-threatening animal entering the scan at `NSW` is placed at `TAS` (its
own current location blocks `NSW`, `QLD` and `VIC` through the forward
checks), whereas the reset-first algorithm of the specification places it
at `NSW`; the two runs differ. -/
theorem relocate_no_initial_reset_counterexample :
    relocate_animals [⟨"Emu", "h", "Emu", "NSW"⟩] =
      .ok ([⟨"Emu", "h", "Emu", "TAS"⟩], [("TAS", "Emu")]) ∧
    relocate_animals_specReset [⟨"Emu", "h", "Emu", "NSW"⟩] =
      .ok ([⟨"Emu", "h", "Emu", "NSW"⟩], [("NSW", "Emu")]) ∧
    relocate_animals [⟨"Emu", "h", "Emu", "NSW"⟩] ≠
      relocate_animals_specReset [⟨"Emu", "h", "Emu", "NSW"⟩] := by
  refine ⟨rfl, rfl, fun h => ?_⟩
  have h' : (Except.ok ([⟨"Emu", "h", "Emu", "TAS"⟩], [("TAS", "Emu")]) :
      Except Unit (List FictionalAnimal × List (String × String))) =
      Except.ok ([⟨"Emu", "h", "Emu", "NSW"⟩], [("NSW", "Emu")]) := h
  injection h' with h1
  injection h1 with e1 e2
  exact absurd e1 (by decide)

/-- Claim C6 (amended): no reset happens at the start of a pass — the
entity keeps its incoming location while its own candidates are checked and
is set to `ACT` only at the end of a failed pass; for inputs whose entities
all start at the default `ACT` (as the constructor guarantees), the run
coincides with the reset-first algorithm of the specification. -/
theorem relocate_no_initial_reset_amended (animals : List FictionalAnimal)
    (h : ∀ a ∈ animals, a.state = "ACT") :
    relocate_animals animals = relocate_animals_specReset animals := by
  unfold relocate_animals relocate_animals_specReset
  exact (relocateAuxSpecReset_eq animals.length animals [] 0
    (fun j a _ haj => h a (List.getElem?_mem haj))).symm

/-- Witness for the amended C6. -/
theorem relocate_no_initial_reset_amended_witness :
    relocate_animals [FictionalAnimal.init "P" "h" "Q"] =
      relocate_animals_specReset [FictionalAnimal.init "P" "h" "Q"] :=
  relocate_no_initial_reset_amended [FictionalAnimal.init "P" "h" "Q"]
    (by decide)
